import Mathlib

/-!
Verification of the recitation-alignment engine of the `testfqih`
repository.  The TypeScript source is shallowly embedded over `List Char`:
each JavaScript string operation (regex replace on character classes,
`split(/\s+/)`, `trim`, `Math.round`, `Set`-based character overlap) is
translated into an executable Lean function, and the spec's claims are
settled as theorems about those functions.

Numbers: JavaScript floats are modelled as `ℚ` (all quantities involved
are small rationals, far from any float-rounding boundary) and
`Math.round` as `⌊q + 1/2⌋`.  The one place JavaScript produces a
non-finite number (`spokenWords / totalWords` with `totalWords = 0`)
is modelled with `Option ℚ`, `none` standing for `NaN`.
-/

namespace Testfqih

/-- Character-code range test, used to translate regex character classes
such as `[ً-ْ]`. -/
def inRange (c : Char) (lo hi : Nat) : Bool :=
  decide (lo ≤ c.toNat) && decide (c.toNat ≤ hi)

/-- Union of the six character classes removed by the first six
`.replace(..., "")` calls of `normalizeArabicText`
(`src/unnamed/part_001` lines 154-159, identical in `part_002`):
diacritics `ً-ْ`, `ٓ-ٕ`, `ٖ-ٟ`,
superscript alif `ٰ`, Quranic annotation marks `ۖ-ۭ`,
and tatweel `ـ`.  Removing six disjoint classes in sequence equals
one filter over their union. -/
def isArabicMark (c : Char) : Bool :=
  inRange c 0x64B 0x652 ||
  inRange c 0x653 0x655 ||
  inRange c 0x656 0x65F ||
  decide (c.toNat = 0x670) ||
  inRange c 0x6D6 0x6ED ||
  decide (c.toNat = 0x640)

/-- Translation of `.replace(/[أإآٱ]/g, "ا")`: fold the four Alif
variants (U+0623, U+0625, U+0622, U+0671) to bare Alif U+0627. -/
def foldAlif (c : Char) : Char :=
  if c == 'أ' || c == 'إ' || c == 'آ' || c == 'ٱ' then 'ا' else c

/-- Translation of `.replace(/[ىئ]/g, "ي")`: fold Alif Maqsura U+0649 and
Ya with Hamza U+0626 to Ya U+064A. -/
def foldYa (c : Char) : Char :=
  if c == 'ى' || c == 'ئ' then 'ي' else c

/-- Translation of `.replace(/ة/g, "ه")`: fold Ta Marbuta U+0629 to
Ha U+0647. -/
def foldTaMarbuta (c : Char) : Char :=
  if c == 'ة' then 'ه' else c

/-- ASCII decimal digit, the character class matched by JavaScript `\d`
(without the `u` flag `\d` is exactly `[0-9]`). -/
def isAsciiDigit (c : Char) : Bool :=
  inRange c 0x30 0x39

/-- The JavaScript regex `\s` character class (and equally the set
stripped by `String.prototype.trim`): ASCII whitespace, NBSP, Ogham
space, the U+2000 block, line/paragraph separators, narrow NBSP,
medium mathematical space, ideographic space, and BOM. -/
def isJsWs (c : Char) : Bool :=
  decide (c.toNat = 0x9) || decide (c.toNat = 0xA) ||
  decide (c.toNat = 0xB) || decide (c.toNat = 0xC) ||
  decide (c.toNat = 0xD) || decide (c.toNat = 0x20) ||
  decide (c.toNat = 0xA0) || decide (c.toNat = 0x1680) ||
  inRange c 0x2000 0x200A ||
  decide (c.toNat = 0x2028) || decide (c.toNat = 0x2029) ||
  decide (c.toNat = 0x202F) || decide (c.toNat = 0x205F) ||
  decide (c.toNat = 0x3000) || decide (c.toNat = 0xFEFF)

/-- Translation of `.replace(/$$\s*\d+\s*$$/g, "")` (the "Remove verse
numbers" step, `src/unnamed/part_001` line 163).  In JavaScript `$` is
the end-of-input assertion, so this pattern demands a digit after the
end of the string and can never match: the replace is the identity.
(The pattern was evidently meant to be `\(\s*\d+\s*\)`.) -/
def removeVerseNumbers (l : List Char) : List Char := l

/-- Translation of `.replace(/\s+/g, " ")`: each maximal run of
whitespace characters becomes a single space. -/
def collapseWs : List Char → List Char
  | [] => []
  | a :: rest =>
    if isJsWs a then
      match rest with
      | [] => [' ']
      | b :: rest2 =>
        if isJsWs b then collapseWs (b :: rest2)
        else ' ' :: collapseWs (b :: rest2)
    else a :: collapseWs rest

/-- Translation of `String.prototype.trim`: drop whitespace from both
ends. -/
def trimWs (l : List Char) : List Char :=
  ((l.dropWhile isJsWs).reverse.dropWhile isJsWs).reverse

/-- Translation of `normalizeArabicText` (`src/unnamed/part_001`
lines 149-169, byte-identical copy in `src/unnamed/part_002`
lines 15-35).  The `if (!text) return ""` guard, the six mark-removal
replaces, the three letter folds, the dead verse-number replace, digit
removal, whitespace collapsing and the final trim, in source order. -/
def normalizeArabicText (text : List Char) : List Char :=
  if text = [] then []
  else
    let s1 := ((((((text.filter (fun c => !inRange c 0x64B 0x652)).filter
      (fun c => !inRange c 0x653 0x655)).filter
      (fun c => !inRange c 0x656 0x65F)).filter
      (fun c => !decide (c.toNat = 0x670))).filter
      (fun c => !inRange c 0x6D6 0x6ED)).filter
      (fun c => !decide (c.toNat = 0x640)))
    let s2 := ((s1.map foldAlif).map foldYa).map foldTaMarbuta
    let s3 := removeVerseNumbers s2
    let s4 := s3.filter (fun c => !isAsciiDigit c)
    trimWs (collapseWs s4)

/-- Tokenisation used throughout the source:
`normalized.split(/\s+/).filter((w) => w.trim())` — split on whitespace
runs and drop empty tokens.  `acc` accumulates the current token in
reverse. -/
def splitWsAux : List Char → List Char → List (List Char)
  | [], acc => if acc = [] then [] else [acc.reverse]
  | c :: rest, acc =>
    if isJsWs c then
      if acc = [] then splitWsAux rest []
      else acc.reverse :: splitWsAux rest []
    else splitWsAux rest (c :: acc)

/-- Split into whitespace-separated tokens, dropping empty tokens. -/
def splitWs (l : List Char) : List (List Char) :=
  splitWsAux l []

/-- Translation of plain `split(/\s+/)` WITHOUT the empty-token filter,
as used in `calculateTextSimilarity` (`src/unnamed/part_002` lines
44-45).  JavaScript `split` keeps an empty fragment before a leading
separator match and after a trailing one, and `"".split(/\s+/)`
is `[""]`. -/
def jsSplitAux : List Char → List Char → List (List Char)
  | [], acc => [acc.reverse]
  | c :: rest, acc =>
    if isJsWs c then
      match rest with
      | [] => [acc.reverse, []]
      | b :: rest2 =>
        if isJsWs b then jsSplitAux (b :: rest2) acc
        else acc.reverse :: jsSplitAux (b :: rest2) []
    else jsSplitAux rest (c :: acc)

/-- JavaScript `split(/\s+/)` (no filtering of empty fragments). -/
def jsSplitWs (l : List Char) : List (List Char) :=
  jsSplitAux l []

/-- Translation of `Math.round` on the non-negative numbers that occur
here: round half away from zero, i.e. `⌊q + 1/2⌋`. -/
def jsRound (q : ℚ) : ℤ :=
  ⌊q + 1/2⌋

/-- Translation of `Math.round(x * 10) / 10`, the one-decimal rounding
used for the report percentages. -/
def jsRound1 (q : ℚ) : ℚ :=
  (jsRound (q * 10) : ℚ) / 10

/-- Translation of `calculateSimilarity` (`src/unnamed/part_001` lines
172-185): normalise both words; equal strings score 1; otherwise the
Jaccard index of the two sets of distinct characters, with a guard for
an empty union. -/
def calculateSimilarity (word1 word2 : List Char) : ℚ :=
  let norm1 := normalizeArabicText word1
  let norm2 := normalizeArabicText word2
  if norm1 = norm2 then 1
  else
    let chars1 := norm1.toFinset
    let chars2 := norm2.toFinset
    let inter := chars1 ∩ chars2
    let uni := chars1 ∪ chars2
    if 0 < uni.card then (inter.card : ℚ) / uni.card else 0

/-- The three values of the realtime error `type` field
(`src/unnamed/part_001` lines 140-146). -/
inductive ErrType where
  | incorrect
  | extra
  | missing
deriving DecidableEq, Repr

/-- The `RealtimeError` record of `src/unnamed/part_001`. -/
structure RealtimeError where
  position : Nat
  spoken : List Char
  expected : List Char
  type : ErrType
  similarity : ℤ
deriving DecidableEq, Repr

/-- The loop body of `checkCurrentWords` (`src/unnamed/part_001` lines
210-239): walk the spoken tokens, `e` being `position + i` for the
current token; return the pushed errors and the final `processedWords`
count.  A token in bounds with similarity at least 0.8 only increments
`processedWords`; a token in bounds below 0.8 pushes an `incorrect`
error (and does not count); a token out of bounds pushes an `extra`
error. -/
def checkLoop (aw : List (List Char)) : List (List Char) → Nat →
    List RealtimeError × Nat
  | [], _ => ([], 0)
  | w :: rest, e =>
    let r := checkLoop aw rest (e + 1)
    if e < aw.length then
      let expectedWord := aw.getD e []
      let sim := calculateSimilarity w expectedWord
      if sim < 4/5 then
        (⟨e, w, expectedWord, ErrType.incorrect, jsRound (sim * 100)⟩ :: r.1,
          r.2)
      else
        (r.1, r.2 + 1)
    else
      (⟨e, w, [], ErrType.extra, 0⟩ :: r.1, r.2)

/-- Translation of `checkCurrentWords` (`src/unnamed/part_001` lines
188-243): guard empty inputs, tokenise both sides, guard an exhausted
position, then run the loop; `newPosition = position + processedWords`. -/
def checkCurrentWords (spoken fullText : List Char) (position : Nat) :
    List RealtimeError × Nat :=
  if spoken = [] ∨ fullText = [] then ([], position)
  else
    let spokenWords := splitWs (normalizeArabicText spoken)
    let allWords := splitWs (normalizeArabicText fullText)
    if position ≥ allWords.length then ([], position)
    else
      let r := checkLoop allWords spokenWords position
      (r.1, position + r.2)

/-- One entry of the `differences` array of `compareTexts`
(`src/unnamed/part_002` lines 5-12): the fields actually pushed for
each of the three error kinds. -/
inductive ErrorDetail where
  | incorrect (spoken correct : List Char) (similarity : ℤ)
  | extra (w : List Char)
  | missing (w : List Char)
deriving DecidableEq, Repr

/-- Greedy used-set matching of `calculateTextSimilarity`
(`src/unnamed/part_002` lines 50-61): for each spoken word take the
first reference word that is equal and not yet used.  The pool pairs
each reference word with its used flag; `pickFirst` returns the
updated pool on success. -/
def pickFirst (w : List Char) : List (List Char × Bool) →
    Option (List (List Char × Bool))
  | [] => none
  | (x, u) :: rest =>
    if !u && x == w then some ((x, true) :: rest)
    else (pickFirst w rest).map (fun r => (x, u) :: r)

/-- Count the greedy matches of `calculateTextSimilarity`. -/
def greedyCount : List (List Char) → List (List Char × Bool) → Nat
  | [], _ => 0
  | w :: ws, pool =>
    match pickFirst w pool with
    | some pool2 => greedyCount ws pool2 + 1
    | none => greedyCount ws pool

/-- Translation of `calculateTextSimilarity` (`src/unnamed/part_002`
lines 38-64): normalise both texts; equal strings score 1; otherwise
greedy exact whole-word matching over `split(/\s+/)` (no empty-token
filter), divided by the longer length.  The `maxLength === 0` guard is
kept although JavaScript `split` never returns an empty array. -/
def calculateTextSimilarity (text1 text2 : List Char) : ℚ :=
  let norm1 := normalizeArabicText text1
  let norm2 := normalizeArabicText text2
  if norm1 = norm2 then 1
  else
    let words1 := jsSplitWs norm1
    let words2 := jsSplitWs norm2
    let maxLength := max words1.length words2.length
    if maxLength = 0 then 1
    else (greedyCount words1 (words2.map (fun w => (w, false))) : ℚ) / maxLength

/-- The positional comparison loop of `compareTexts`
(`src/unnamed/part_002` lines 79-105): walk both token lists in step;
both present and different pushes `incorrect` with
`Math.round(calculateTextSimilarity(spoken, original) * 100)`; only
spoken present pushes `extra`; only original present pushes `missing`.
Tokens are non-empty, so JavaScript truthiness of `spokenWords[i]`
coincides with being in bounds. -/
def comparePositional : List (List Char) → List (List Char) → List ErrorDetail
  | [], os => os.map ErrorDetail.missing
  | s :: ss, [] => ErrorDetail.extra s :: comparePositional ss []
  | s :: ss, o :: os =>
    (if s = o then []
     else [ErrorDetail.incorrect s o (jsRound (calculateTextSimilarity s o * 100))])
      ++ comparePositional ss os

/-- Translation of `compareTexts` (`src/unnamed/part_002` lines
67-108): headline similarity on the normalised whole strings, then the
positional diff over the filtered token lists. -/
def compareTexts (spoken original : List Char) : List ErrorDetail × ℚ :=
  let spokenNormalized := normalizeArabicText spoken
  let originalNormalized := normalizeArabicText original
  let similarity := calculateTextSimilarity spokenNormalized originalNormalized
  let spokenWords := splitWs spokenNormalized
  let originalWords := splitWs originalNormalized
  (comparePositional spokenWords originalWords, similarity)

/-- The pure content of the final-analysis response object
(`src/unnamed/part_002` lines 214-231).  The `suggestions`,
`timestamp`, `session_duration` and `processing_info` fields are
external I/O (LLM call, wall clock) and carry no alignment data, so
they are not modelled.  `completion_percentage` is `Option ℚ`: `none`
models the JavaScript `NaN` produced by `0 / 0`. -/
structure Analysis where
  overall_accuracy : ℚ
  completion_percentage : Option ℚ
  total_words : Nat
  spoken_words : Nat
  total_errors : Nat
  errors_incorrect : List ErrorDetail
  errors_missing : List ErrorDetail
  errors_extra : List ErrorDetail
  counts_incorrect : Nat
  counts_missing : Nat
  counts_extra : Nat
deriving DecidableEq, Repr

/-- Discriminator for the `type` field used by the `filter` calls of
the report assembly. -/
def ErrorDetail.isIncorrect : ErrorDetail → Bool
  | .incorrect _ _ _ => true
  | _ => false

/-- Discriminator for `missing` entries. -/
def ErrorDetail.isMissing : ErrorDetail → Bool
  | .missing _ => true
  | _ => false

/-- Discriminator for `extra` entries. -/
def ErrorDetail.isExtra : ErrorDetail → Bool
  | .extra _ => true
  | _ => false

/-- Translation of the `POST` handler of `src/unnamed/part_002` lines
174-238 (the pure part).  `none` models the 400 response for a missing
or empty `transcript`/`fullText`.  The `realtimeErrors` request field
is destructured by the source and never used; it is kept as a
parameter to make that visible.  `completionPercentage` follows the
JavaScript evaluation of `Math.min(spokenWords / totalWords * 100, 100)`:
with `totalWords = 0` the quotient is `Infinity` (clamped to 100) when
`spokenWords > 0` and `NaN` (propagated, modelled `none`) when
`spokenWords = 0`. -/
def finalAnalysisPOST (transcript fullText : List Char)
    (realtimeErrors : List RealtimeError) : Option Analysis :=
  if transcript = [] ∨ fullText = [] then none
  else
    let r := compareTexts transcript fullText
    let differences := r.1
    let similarity := r.2
    let totalWords := (splitWs (normalizeArabicText fullText)).length
    let spokenWords := (splitWs (normalizeArabicText transcript)).length
    let errorsIncorrect := differences.filter (fun d => d.isIncorrect)
    let errorsMissing := differences.filter (fun d => d.isMissing)
    let errorsExtra := differences.filter (fun d => d.isExtra)
    let accuracyPercentage := similarity * 100
    let completionPercentage : Option ℚ :=
      if totalWords = 0 then
        if spokenWords = 0 then none else some 100
      else some (min ((spokenWords : ℚ) / totalWords * 100) 100)
    some
      { overall_accuracy := jsRound1 accuracyPercentage
        completion_percentage := completionPercentage.map jsRound1
        total_words := totalWords
        spoken_words := spokenWords
        total_errors := differences.length
        errors_incorrect := errorsIncorrect
        errors_missing := errorsMissing
        errors_extra := errorsExtra
        counts_incorrect := errorsIncorrect.length
        counts_missing := errorsMissing.length
        counts_extra := errorsExtra.length }



/-! ## Normal forms of `normalizeArabicText` -/

/-- The characters moved by the three letter folds. -/
def isFoldable (c : Char) : Bool :=
  c == 'أ' || c == 'إ' || c == 'آ' || c == 'ٱ' || c == 'ى' || c == 'ئ' || c == 'ة'

/-- The composition of the three letter folds, in source order. -/
def foldChar (c : Char) : Char :=
  foldTaMarbuta (foldYa (foldAlif c))

/-- No two adjacent whitespace characters. -/
def WsSep (l : List Char) : Prop :=
  l.Chain' (fun a b => isJsWs a = false ∨ isJsWs b = false)

/-- The invariant satisfied by every output of `normalizeArabicText`:
no removable mark, no foldable letter, no ASCII digit, every
whitespace character is a plain space, no two adjacent whitespace
characters, and no whitespace at either end. -/
def NormalForm (l : List Char) : Prop :=
  (∀ c ∈ l, isArabicMark c = false ∧ isFoldable c = false ∧
    isAsciiDigit c = false ∧ (isJsWs c = true → c = ' ')) ∧
  WsSep l ∧
  (∀ c, l.head? = some c → isJsWs c = false) ∧
  (∀ c, l.getLast? = some c → isJsWs c = false)

theorem foldChar_not_foldable (c : Char) : isFoldable (foldChar c) = false := by
  unfold foldChar foldAlif
  split
  · decide
  · unfold foldYa
    split
    · decide
    · unfold foldTaMarbuta
      split
      · decide
      · rename_i h1 h2 h3
        simp only [Bool.or_eq_true, beq_iff_eq, not_or] at h1 h2 h3
        simp [isFoldable, beq_iff_eq, h1.1.1.1, h1.1.1.2, h1.1.2, h1.2,
          h2.1, h2.2, h3]

theorem foldChar_not_mark {c : Char} (h : isArabicMark c = false) :
    isArabicMark (foldChar c) = false := by
  unfold foldChar foldAlif
  split
  · decide
  · unfold foldYa
    split
    · decide
    · unfold foldTaMarbuta
      split
      · decide
      · exact h

theorem foldChar_eq_self {c : Char} (h : isFoldable c = false) : foldChar c = c := by
  simp only [isFoldable, Bool.or_eq_false_iff] at h
  obtain ⟨⟨⟨⟨⟨⟨h1, h2⟩, h3⟩, h4⟩, h5⟩, h6⟩, h7⟩ := h
  simp [foldChar, foldAlif, foldYa, foldTaMarbuta, h1, h2, h3, h4, h5, h6, h7]

/-- The six sequential mark filters equal one filter over the union
class. -/
theorem marksFilter_eq (text : List Char) :
    (((((text.filter (fun c => !inRange c 0x64B 0x652)).filter
      (fun c => !inRange c 0x653 0x655)).filter
      (fun c => !inRange c 0x656 0x65F)).filter
      (fun c => !decide (c.toNat = 0x670))).filter
      (fun c => !inRange c 0x6D6 0x6ED)).filter
      (fun c => !decide (c.toNat = 0x640)) =
      text.filter (fun c => !isArabicMark c) := by
  simp only [List.filter_filter]
  apply List.filter_congr
  intro a _
  cases h1 : inRange a 0x64B 0x652 <;>
  cases h2 : inRange a 0x653 0x655 <;>
  cases h3 : inRange a 0x656 0x65F <;>
  cases h4 : decide (a.toNat = 0x670) <;>
  cases h5 : inRange a 0x6D6 0x6ED <;>
  cases h6 : decide (a.toNat = 0x640) <;>
  simp [isArabicMark, h1, h2, h3, h4, h5, h6]

/-- The three sequential fold maps equal one map of the composed fold. -/
theorem foldMaps_eq (l : List Char) :
    ((l.map foldAlif).map foldYa).map foldTaMarbuta = l.map foldChar := by
  simp only [List.map_map]
  rfl

/-- The six sequential mark filters, the three sequential fold maps, the
identity verse-number step and the digit filter of
`normalizeArabicText` collapse into one filter, one map and one
filter. -/
theorem normalize_eq (text : List Char) :
    normalizeArabicText text =
      trimWs (collapseWs (((text.filter (fun c => !isArabicMark c)).map
        foldChar).filter (fun c => !isAsciiDigit c))) := by
  unfold normalizeArabicText removeVerseNumbers
  split
  · rename_i h; subst h; rfl
  · simp only [marksFilter_eq, foldMaps_eq]

theorem collapseWs_cons_not_ws {b : Char} {rest : List Char}
    (hb : isJsWs b = false) : collapseWs (b :: rest) = b :: collapseWs rest := by
  rw [collapseWs.eq_def]
  simp [hb]

theorem mem_collapseWs {l : List Char} {c : Char} (h : c ∈ collapseWs l) :
    c = ' ' ∨ (c ∈ l ∧ isJsWs c = false) := by
  induction l with
  | nil => simp [collapseWs] at h
  | cons a rest ih =>
    cases ha : isJsWs a with
    | true =>
      cases rest with
      | nil =>
        simp [collapseWs, ha] at h
        exact Or.inl h
      | cons b rest2 =>
        cases hb : isJsWs b with
        | true =>
          rw [show collapseWs (a :: b :: rest2) = collapseWs (b :: rest2) from by
            simp [collapseWs, ha, hb]] at h
          rcases ih h with h' | ⟨hmem, hws⟩
          · exact Or.inl h'
          · exact Or.inr ⟨by simp [hmem], hws⟩
        | false =>
          rw [show collapseWs (a :: b :: rest2) = ' ' :: collapseWs (b :: rest2) from by
            simp [collapseWs, ha, hb]] at h
          rcases List.mem_cons.mp h with h' | h'
          · exact Or.inl h'
          · rcases ih h' with h'' | ⟨hmem, hws⟩
            · exact Or.inl h''
            · exact Or.inr ⟨by simp [hmem], hws⟩
    | false =>
      rw [collapseWs_cons_not_ws ha] at h
      rcases List.mem_cons.mp h with h' | h'
      · subst h'; exact Or.inr ⟨by simp, ha⟩
      · rcases ih h' with h'' | ⟨hmem, hws⟩
        · exact Or.inl h''
        · exact Or.inr ⟨by simp [hmem], hws⟩

theorem wsSep_collapseWs (l : List Char) : WsSep (collapseWs l) := by
  induction l with
  | nil => simp [collapseWs, WsSep]
  | cons a rest ih =>
    cases ha : isJsWs a with
    | true =>
      cases rest with
      | nil => simp [collapseWs, ha, WsSep]
      | cons b rest2 =>
        cases hb : isJsWs b with
        | true =>
          rw [show collapseWs (a :: b :: rest2) = collapseWs (b :: rest2) from by
            simp [collapseWs, ha, hb]]
          exact ih
        | false =>
          rw [show collapseWs (a :: b :: rest2) = ' ' :: collapseWs (b :: rest2) from by
            simp [collapseWs, ha, hb]]
          rw [WsSep, List.chain'_cons']
          constructor
          · intro y hy
            rw [collapseWs_cons_not_ws hb] at hy
            simp only [List.head?_cons, Option.mem_def, Option.some.injEq] at hy
            subst hy
            exact Or.inr hb
          · exact ih
    | false =>
      rw [collapseWs_cons_not_ws ha]
      rw [WsSep, List.chain'_cons']
      exact ⟨fun y _ => Or.inl ha, ih⟩

theorem collapseWs_eq_self {l : List Char}
    (h1 : ∀ c ∈ l, isJsWs c = true → c = ' ') (h2 : WsSep l) :
    collapseWs l = l := by
  induction l with
  | nil => rfl
  | cons a rest ih =>
    cases ha : isJsWs a with
    | true =>
      have ha' : a = ' ' := h1 a (by simp) ha
      cases rest with
      | nil => simp [collapseWs, ha, ha']
      | cons b rest2 =>
        have hab : isJsWs a = false ∨ isJsWs b = false :=
          (List.chain'_cons.mp h2).1
        have hb : isJsWs b = false := by
          rcases hab with h | h
          · rw [ha] at h; exact absurd h (by simp)
          · exact h
        rw [show collapseWs (a :: b :: rest2) = ' ' :: collapseWs (b :: rest2) from by
          simp [collapseWs, ha, hb]]
        rw [ih (fun c hc hw => h1 c (by simp [hc]) hw) (List.chain'_cons.mp h2).2, ha']
    | false =>
      rw [collapseWs_cons_not_ws ha]
      rw [ih (fun c hc hw => h1 c (by simp [hc]) hw)
        (List.chain'_cons'.mp h2).2]

theorem mem_trimWs {l : List Char} {c : Char} (h : c ∈ trimWs l) : c ∈ l := by
  unfold trimWs at h
  rw [List.mem_reverse] at h
  have h1 := (List.dropWhile_suffix isJsWs).subset h
  rw [List.mem_reverse] at h1
  exact (List.dropWhile_suffix isJsWs).subset h1

theorem wsSep_reverse {l : List Char} (h : WsSep l) : WsSep l.reverse := by
  rw [WsSep, List.chain'_reverse]
  exact List.Chain'.imp (fun a b hab => hab.elim Or.inr Or.inl) h

theorem wsSep_dropWhile {l : List Char} (h : WsSep l) :
    WsSep (l.dropWhile isJsWs) :=
  List.Chain'.suffix h (List.dropWhile_suffix isJsWs)

theorem wsSep_trimWs {l : List Char} (h : WsSep l) : WsSep (trimWs l) :=
  wsSep_reverse (wsSep_dropWhile (wsSep_reverse (wsSep_dropWhile h)))

theorem isPrefix_head {l1 l2 : List Char} {c : Char} (hp : l1 <+: l2)
    (h : l1.head? = some c) : l2.head? = some c := by
  obtain ⟨t, rfl⟩ := hp
  cases l1 with
  | nil => simp at h
  | cons a t1 => simpa using h

theorem trimWs_isPrefix (l : List Char) : trimWs l <+: l.dropWhile isJsWs := by
  have h1 : ((l.dropWhile isJsWs).reverse.dropWhile isJsWs) <:+
      (l.dropWhile isJsWs).reverse :=
    List.dropWhile_suffix isJsWs
  have h2 := List.reverse_prefix.mpr h1
  simpa [trimWs] using h2

theorem trimWs_head {l : List Char} {c : Char}
    (h : (trimWs l).head? = some c) : isJsWs c = false := by
  have h2 := isPrefix_head (trimWs_isPrefix l) h
  have h3 := List.head?_dropWhile_not isJsWs l
  rw [h2] at h3
  exact h3

theorem trimWs_getLast {l : List Char} {c : Char}
    (h : (trimWs l).getLast? = some c) : isJsWs c = false := by
  unfold trimWs at h
  rw [List.getLast?_reverse] at h
  have h3 := List.head?_dropWhile_not isJsWs (l.dropWhile isJsWs).reverse
  rw [h] at h3
  exact h3

theorem dropWhile_eq_self_of_head {p : Char → Bool} {l : List Char}
    (h : ∀ c, l.head? = some c → p c = false) : l.dropWhile p = l := by
  cases l with
  | nil => rfl
  | cons a t => simp [List.dropWhile_cons, h a rfl]

theorem trimWs_eq_self {l : List Char}
    (hh : ∀ c, l.head? = some c → isJsWs c = false)
    (hl : ∀ c, l.getLast? = some c → isJsWs c = false) : trimWs l = l := by
  unfold trimWs
  rw [dropWhile_eq_self_of_head hh,
    dropWhile_eq_self_of_head (fun c hc => hl c (by rwa [List.head?_reverse] at hc)),
    List.reverse_reverse]

theorem normalForm_normalizeArabicText (text : List Char) :
    NormalForm (normalizeArabicText text) := by
  rw [normalize_eq]
  refine ⟨?_, wsSep_trimWs (wsSep_collapseWs _), fun c hc => trimWs_head hc,
    fun c hc => trimWs_getLast hc⟩
  intro c hc
  have hc2 := mem_trimWs hc
  rcases mem_collapseWs hc2 with rfl | ⟨hmem, hws⟩
  · exact ⟨by decide, by decide, by decide, fun _ => rfl⟩
  · rw [List.mem_filter] at hmem
    obtain ⟨hmem2, hdig⟩ := hmem
    rw [List.mem_map] at hmem2
    obtain ⟨x, hx, rfl⟩ := hmem2
    rw [List.mem_filter] at hx
    refine ⟨foldChar_not_mark (by simpa using hx.2), foldChar_not_foldable x,
      by simpa using hdig, fun hwt => absurd hwt (by simp [hws])⟩

theorem normalizeArabicText_of_normalForm {l : List Char} (h : NormalForm l) :
    normalizeArabicText l = l := by
  obtain ⟨hc, hsep, hh, hl⟩ := h
  rw [normalize_eq]
  have h1 : l.filter (fun c => !isArabicMark c) = l :=
    List.filter_eq_self.mpr (fun a ha => by simp [(hc a ha).1])
  rw [h1]
  have h2 : l.map foldChar = l := by
    have hpt : ∀ a ∈ l, foldChar a = a :=
      fun a ha => foldChar_eq_self (hc a ha).2.1
    rw [List.map_congr_left hpt]
    simp
  rw [h2]
  have h3 : l.filter (fun c => !isAsciiDigit c) = l :=
    List.filter_eq_self.mpr (fun a ha => by simp [(hc a ha).2.2.1])
  rw [h3]
  rw [collapseWs_eq_self (fun c hcc hw => (hc c hcc).2.2.2 hw) hsep]
  exact trimWs_eq_self hh hl

/-- Idempotence of the normaliser, used both for the claim itself and
for re-normalisation of already-normalised intermediate values inside
the similarity functions. -/
theorem normalizeArabicText_idem (s : List Char) :
    normalizeArabicText (normalizeArabicText s) = normalizeArabicText s :=
  normalizeArabicText_of_normalForm (normalForm_normalizeArabicText s)



/-! ## Tokens produced by `splitWs` -/

theorem splitWsAux_tokens :
    ∀ (l acc : List Char), (∀ c ∈ acc, isJsWs c = false) →
      ∀ t ∈ splitWsAux l acc,
        t ≠ [] ∧ ∀ c ∈ t, (c ∈ acc ∨ c ∈ l) ∧ isJsWs c = false := by
  intro l
  induction l with
  | nil =>
    intro acc hacc t ht
    by_cases h : acc = []
    · subst h; simp [splitWsAux] at ht
    · simp only [splitWsAux, if_neg h, List.mem_singleton] at ht
      subst ht
      exact ⟨by simpa using h,
        fun c hcc => ⟨Or.inl (by simpa using hcc), hacc c (by simpa using hcc)⟩⟩
  | cons a rest ih =>
    intro acc hacc t ht
    cases ha : isJsWs a with
    | true =>
      by_cases h : acc = []
      · subst h
        rw [show splitWsAux (a :: rest) [] = splitWsAux rest [] from by
          simp [splitWsAux, ha]] at ht
        obtain ⟨h1, h2⟩ := ih [] (by simp) t ht
        refine ⟨h1, fun c hcc => ⟨?_, (h2 c hcc).2⟩⟩
        rcases (h2 c hcc).1 with hx | hx
        · simp at hx
        · exact Or.inr (by simp [hx])
      · rw [show splitWsAux (a :: rest) acc = acc.reverse :: splitWsAux rest [] from by
          simp [splitWsAux, ha, h]] at ht
        rcases List.mem_cons.mp ht with rfl | ht2
        · exact ⟨by simpa using h,
            fun c hcc => ⟨Or.inl (by simpa using hcc), hacc c (by simpa using hcc)⟩⟩
        · obtain ⟨h1, h2⟩ := ih [] (by simp) t ht2
          refine ⟨h1, fun c hcc => ⟨?_, (h2 c hcc).2⟩⟩
          rcases (h2 c hcc).1 with hx | hx
          · simp at hx
          · exact Or.inr (by simp [hx])
    | false =>
      rw [show splitWsAux (a :: rest) acc = splitWsAux rest (a :: acc) from by
        simp [splitWsAux, ha]] at ht
      have hacc2 : ∀ c ∈ a :: acc, isJsWs c = false := by
        intro c hcc
        rcases List.mem_cons.mp hcc with rfl | h2
        · exact ha
        · exact hacc c h2
      obtain ⟨h1, h2⟩ := ih (a :: acc) hacc2 t ht
      refine ⟨h1, fun c hcc => ⟨?_, (h2 c hcc).2⟩⟩
      rcases (h2 c hcc).1 with hx | hx
      · rcases List.mem_cons.mp hx with rfl | h3
        · exact Or.inr (by simp)
        · exact Or.inl h3
      · exact Or.inr (by simp [hx])

theorem splitWs_tokens {m t : List Char} (ht : t ∈ splitWs m) :
    t ≠ [] ∧ ∀ c ∈ t, c ∈ m ∧ isJsWs c = false := by
  obtain ⟨h1, h2⟩ := splitWsAux_tokens m [] (by simp) t ht
  refine ⟨h1, fun c hcc => ⟨?_, (h2 c hcc).2⟩⟩
  rcases (h2 c hcc).1 with hx | hx
  · simp at hx
  · exact hx

theorem wsSep_of_no_ws {l : List Char} (h : ∀ c ∈ l, isJsWs c = false) :
    WsSep l := by
  induction l with
  | nil => simp [WsSep]
  | cons a rest ih =>
    rw [WsSep, List.chain'_cons']
    exact ⟨fun y _ => Or.inl (h a (by simp)),
      ih (fun c hc => h c (by simp [hc]))⟩

/-- A token of the tokenised normalisation of any string is itself a
fixed point of the normaliser. -/
theorem token_normalize_eq_self {s t : List Char}
    (ht : t ∈ splitWs (normalizeArabicText s)) :
    normalizeArabicText t = t := by
  obtain ⟨hne, hch⟩ := splitWs_tokens ht
  have hNF := normalForm_normalizeArabicText s
  apply normalizeArabicText_of_normalForm
  refine ⟨?_, wsSep_of_no_ws (fun c hc => (hch c hc).2), ?_, ?_⟩
  · intro c hc
    have h1 := hNF.1 c ((hch c hc).1)
    exact ⟨h1.1, h1.2.1, h1.2.2.1,
      fun hw => absurd hw (by simp [(hch c hc).2])⟩
  · intro c hc
    have hmem : c ∈ t := by
      cases t with
      | nil => simp at hc
      | cons x xs =>
        simp only [List.head?_cons, Option.some.injEq] at hc
        subst hc; simp
    exact (hch c hmem).2
  · intro c hc
    exact (hch c (List.mem_of_getLast?_eq_some hc)).2

/-! ## `calculateTextSimilarity` on single tokens -/

theorem jsSplitAux_no_ws :
    ∀ (l acc : List Char), (∀ c ∈ l, isJsWs c = false) →
      jsSplitAux l acc = [acc.reverse ++ l] := by
  intro l
  induction l with
  | nil => intro acc _; simp [jsSplitAux]
  | cons a rest ih =>
    intro acc h
    have ha : isJsWs a = false := h a (by simp)
    rw [show jsSplitAux (a :: rest) acc = jsSplitAux rest (a :: acc) from by
      rw [jsSplitAux.eq_def]; simp [ha]]
    rw [ih (a :: acc) (fun c hc => h c (by simp [hc]))]
    simp

theorem jsSplitWs_no_ws {l : List Char} (h : ∀ c ∈ l, isJsWs c = false) :
    jsSplitWs l = [l] := by
  unfold jsSplitWs
  rw [jsSplitAux_no_ws l [] h]
  simp

/-- For two distinct non-empty whitespace-free normalisation fixed
points — in particular two distinct tokens of the positional diff —
`calculateTextSimilarity` is exactly 0: each side tokenises to a
single word and the greedy matcher finds no exact equality. -/
theorem calculateTextSimilarity_tokens_eq_zero {a b : List Char}
    (hna : normalizeArabicText a = a) (hnb : normalizeArabicText b = b)
    (haw : ∀ c ∈ a, isJsWs c = false) (hbw : ∀ c ∈ b, isJsWs c = false)
    (hne : a ≠ b) :
    calculateTextSimilarity a b = 0 := by
  simp only [calculateTextSimilarity, hna, hnb, if_neg hne]
  rw [jsSplitWs_no_ws haw, jsSplitWs_no_ws hbw]
  have hba : (b == a) = false := by
    simp only [beq_eq_false_iff_ne, ne_eq]
    exact fun hx => hne hx.symm
  simp [greedyCount, pickFirst, hba]

/-! ## The incremental aligner loop -/

theorem checkLoop_count_le (aw : List (List Char)) :
    ∀ (sw : List (List Char)) (e : Nat), (checkLoop aw sw e).2 ≤ aw.length - e := by
  intro sw
  induction sw with
  | nil => intro e; simp [checkLoop]
  | cons w rest ih =>
    intro e
    have ihe := ih (e + 1)
    by_cases he : e < aw.length
    · by_cases hs : calculateSimilarity w (aw.getD e []) < 4/5
      · simp only [checkLoop, if_pos he, if_pos hs]
        omega
      · simp only [checkLoop, if_pos he, if_neg hs]
        omega
    · simp only [checkLoop, if_neg he]
      omega

theorem checkLoop_count_eq (aw : List (List Char)) :
    ∀ (sw : List (List Char)) (e : Nat), e + sw.length ≤ aw.length →
      (checkLoop aw sw e).2 =
        (List.range sw.length).countP
          (fun i => !decide (calculateSimilarity (sw.getD i [])
            (aw.getD (e + i) []) < 4/5)) := by
  intro sw
  induction sw with
  | nil => intro e _; simp [checkLoop]
  | cons w rest ih =>
    intro e hle
    have he : e < aw.length := by
      simp only [List.length_cons] at hle; omega
    have ihe := ih (e + 1) (by simp only [List.length_cons] at hle ⊢; omega)
    have hreidx : (List.range rest.length).countP
        ((fun i => !decide (calculateSimilarity ((w :: rest).getD i [])
          (aw.getD (e + i) []) < 4/5)) ∘ Nat.succ) =
        (List.range rest.length).countP
        (fun i => !decide (calculateSimilarity (rest.getD i [])
          (aw.getD (e + 1 + i) []) < 4/5)) := by
      apply List.countP_congr
      intro i _
      simp only [Function.comp_apply, List.getD_cons_succ]
      rw [show e + (i + 1) = e + 1 + i from by omega]
    rw [List.length_cons, List.range_succ_eq_map, List.countP_cons,
      List.countP_map, hreidx, ← ihe]
    by_cases hsw : calculateSimilarity w (aw.getD e []) < 4/5
    · simp only [checkLoop, if_pos he, if_pos hsw]
      simp [hsw]
      simpa [List.getD] using hsw
    · simp only [checkLoop, if_pos he, if_neg hsw]
      simp [hsw]
      rw [if_pos (by simpa [List.getD] using not_lt.mp hsw)]

theorem checkLoop_incorrect_mem (aw : List (List Char)) :
    ∀ (sw : List (List Char)) (e i : Nat), i < sw.length →
      e + i < aw.length →
      calculateSimilarity (sw.getD i []) (aw.getD (e + i) []) < 4/5 →
      (⟨e + i, sw.getD i [], aw.getD (e + i) [], ErrType.incorrect,
        jsRound (calculateSimilarity (sw.getD i []) (aw.getD (e + i) []) * 100)⟩ :
        RealtimeError) ∈ (checkLoop aw sw e).1 := by
  intro sw
  induction sw with
  | nil => intro e i hi; simp at hi
  | cons w rest ih =>
    intro e i hi hb hs
    cases i with
    | zero =>
      have he : e < aw.length := by simpa using hb
      simp only [List.getD_cons_zero, Nat.add_zero] at hs ⊢
      simp only [checkLoop, if_pos he, if_pos hs]
      exact List.mem_cons_self _ _
    | succ j =>
      have harith : e + (j + 1) = e + 1 + j := by omega
      rw [List.getD_cons_succ, harith] at hs ⊢
      rw [harith] at hb
      have hj : j < rest.length := by simpa using hi
      have hmem := ih (e + 1) j hj hb hs
      by_cases he : e < aw.length
      · by_cases hsw : calculateSimilarity w (aw.getD e []) < 4/5
        · simp only [checkLoop, if_pos he, if_pos hsw]
          exact List.mem_cons_of_mem _ hmem
        · simp only [checkLoop, if_pos he, if_neg hsw]
          exact hmem
      · simp only [checkLoop, if_neg he]
        exact List.mem_cons_of_mem _ hmem

theorem checkLoop_no_missing (aw : List (List Char)) :
    ∀ (sw : List (List Char)) (e : Nat) (er : RealtimeError),
      er ∈ (checkLoop aw sw e).1 →
      er.type = ErrType.incorrect ∨ er.type = ErrType.extra := by
  intro sw
  induction sw with
  | nil => intro e er h; simp [checkLoop] at h
  | cons w rest ih =>
    intro e er h
    by_cases he : e < aw.length
    · by_cases hsw : calculateSimilarity w (aw.getD e []) < 4/5
      · simp only [checkLoop, if_pos he, if_pos hsw] at h
        rcases List.mem_cons.mp h with rfl | h2
        · exact Or.inl rfl
        · exact ih (e + 1) er h2
      · simp only [checkLoop, if_pos he, if_neg hsw] at h
        exact ih (e + 1) er h
    · simp only [checkLoop, if_neg he] at h
      rcases List.mem_cons.mp h with rfl | h2
      · exact Or.inr rfl
      · exact ih (e + 1) er h2

/-! ## `calculateSimilarity` on equal character sets -/

theorem calculateSimilarity_of_toFinset_eq {w1 w2 : List Char}
    (h : (normalizeArabicText w1).toFinset = (normalizeArabicText w2).toFinset) :
    calculateSimilarity w1 w2 = 1 := by
  by_cases heq : normalizeArabicText w1 = normalizeArabicText w2
  · simp [calculateSimilarity, heq]
  · have hne : normalizeArabicText w2 ≠ [] := by
      intro h0
      rw [h0] at h heq
      rw [show ([] : List Char).toFinset = ∅ from rfl,
        List.toFinset_eq_empty_iff] at h
      exact heq h
    have hcard : 0 < (normalizeArabicText w2).toFinset.card :=
      Finset.card_pos.mpr ((List.toFinset_nonempty_iff _).mpr hne)
    simp only [calculateSimilarity, if_neg heq, h, Finset.inter_self,
      Finset.union_self, if_pos hcard]
    apply div_self
    exact_mod_cast Nat.pos_iff_ne_zero.mp hcard

/-! ## The positional comparison and report assembly -/

theorem comparePositional_incorrect_mem :
    ∀ (ss os : List (List Char)) (i : Nat), i < ss.length → i < os.length →
      ss.getD i [] ≠ os.getD i [] →
      ErrorDetail.incorrect (ss.getD i []) (os.getD i [])
        (jsRound (calculateTextSimilarity (ss.getD i []) (os.getD i []) * 100))
        ∈ comparePositional ss os := by
  intro ss
  induction ss with
  | nil => intro os i hi1; simp at hi1
  | cons s ss2 ih =>
    intro os i hi1 hi2 hne
    cases os with
    | nil => simp at hi2
    | cons o os2 =>
      cases i with
      | zero =>
        simp only [List.getD_cons_zero] at hne ⊢
        simp [comparePositional, hne]
      | succ j =>
        simp only [List.getD_cons_succ] at hne ⊢
        have hmem := ih os2 j (by simpa using hi1) (by simpa using hi2) hne
        simp only [comparePositional]
        exact List.mem_append_right _ hmem

theorem isIncorrect_mk (s c : List Char) (k : ℤ) :
    (ErrorDetail.incorrect s c k).isIncorrect = true := rfl

theorem isMissing_mk_incorrect (s c : List Char) (k : ℤ) :
    (ErrorDetail.incorrect s c k).isMissing = false := rfl

theorem isExtra_mk_incorrect (s c : List Char) (k : ℤ) :
    (ErrorDetail.incorrect s c k).isExtra = false := rfl

theorem isIncorrect_mk_missing (w : List Char) :
    (ErrorDetail.missing w).isIncorrect = false := rfl

theorem isMissing_mk (w : List Char) :
    (ErrorDetail.missing w).isMissing = true := rfl

theorem isExtra_mk_missing (w : List Char) :
    (ErrorDetail.missing w).isExtra = false := rfl

theorem isIncorrect_mk_extra (w : List Char) :
    (ErrorDetail.extra w).isIncorrect = false := rfl

theorem isMissing_mk_extra (w : List Char) :
    (ErrorDetail.extra w).isMissing = false := rfl

theorem isExtra_mk (w : List Char) :
    (ErrorDetail.extra w).isExtra = true := rfl

theorem count_partition (dl : List ErrorDetail) (e : ErrorDetail) :
    (dl.filter (fun d => d.isIncorrect)).count e +
    (dl.filter (fun d => d.isMissing)).count e +
    (dl.filter (fun d => d.isExtra)).count e = dl.count e := by
  induction dl with
  | nil => simp
  | cons d rest ih =>
    cases d <;>
      simp [List.filter_cons, isIncorrect_mk, isMissing_mk_incorrect,
        isExtra_mk_incorrect, isIncorrect_mk_missing, isMissing_mk,
        isExtra_mk_missing, isIncorrect_mk_extra, isMissing_mk_extra,
        isExtra_mk, List.count_cons] <;>
      omega

/-! ## Characterisations of `checkCurrentWords` -/

theorem checkCurrentWords_noop {spoken fullText : List Char} {pos : Nat}
    (h : (splitWs (normalizeArabicText fullText)).length ≤ pos) :
    checkCurrentWords spoken fullText pos = ([], pos) := by
  by_cases hg : spoken = [] ∨ fullText = []
  · simp [checkCurrentWords, hg]
  · simp [checkCurrentWords, hg, h]

theorem checkCurrentWords_eq_loop {spoken fullText : List Char} {pos : Nat}
    (h1 : ¬(spoken = [] ∨ fullText = []))
    (h2 : pos < (splitWs (normalizeArabicText fullText)).length) :
    checkCurrentWords spoken fullText pos =
      ((checkLoop (splitWs (normalizeArabicText fullText))
        (splitWs (normalizeArabicText spoken)) pos).1,
       pos + (checkLoop (splitWs (normalizeArabicText fullText))
        (splitWs (normalizeArabicText spoken)) pos).2) := by
  simp only [checkCurrentWords]
  rw [if_neg h1, if_neg (not_le.mpr h2)]


/-! ## Concrete evaluations involving rational values -/

theorem jsRound_eval_0 : jsRound ((0 : ℚ) * 100) = 0 := by
  unfold jsRound
  rw [Int.floor_eq_iff] <;> norm_num

theorem jsRound_eval_1 : jsRound ((1 : ℚ) * 100) = 100 := by
  unfold jsRound
  rw [Int.floor_eq_iff] <;> norm_num

theorem jsRound1_eval_100 : jsRound1 100 = 100 := by
  unfold jsRound1
  rw [show jsRound ((100 : ℚ) * 10) = 1000 from by
    unfold jsRound; rw [Int.floor_eq_iff] <;> norm_num]
  norm_num

theorem calcSim_b_c : calculateSimilarity ['b'] ['c'] = 0 := by
  simp only [calculateSimilarity,
    show normalizeArabicText ['b'] = ['b'] from by decide,
    show normalizeArabicText ['c'] = ['c'] from by decide]
  rw [if_neg (by decide)]
  rw [show ((['b'] : List Char).toFinset ∩ (['c'] : List Char).toFinset).card = 0
      from by decide,
    show ((['b'] : List Char).toFinset ∪ (['c'] : List Char).toFinset).card = 2
      from by decide]
  norm_num

theorem calcSim_ab_ba : calculateSimilarity ['a', 'b'] ['b', 'a'] = 1 :=
  calculateSimilarity_of_toFinset_eq (by decide)

theorem ctsim_ab_ba : calculateTextSimilarity ['a', 'b'] ['b', 'a'] = 0 :=
  calculateTextSimilarity_tokens_eq_zero (by decide) (by decide)
    (by decide) (by decide) (by decide)

theorem checkLoop_eval_b_cd :
    checkLoop [['c'], ['d']] [['b']] 0 =
      ([⟨0, ['b'], ['c'], ErrType.incorrect,
        jsRound (calculateSimilarity ['b'] ['c'] * 100)⟩], 0) := by
  have hs : calculateSimilarity ['b'] (([['c'], ['d']] :
      List (List Char)).getD 0 []) < 4/5 := by
    rw [show (([['c'], ['d']] : List (List Char)).getD 0 []) = ['c'] from rfl,
      calcSim_b_c]
    norm_num
  simp only [checkLoop, if_pos (show (0 : Nat) < ([['c'], ['d']] :
    List (List Char)).length from by decide), if_pos hs]
  rfl

theorem checkLoop_eval_ab_ba :
    checkLoop [['b', 'a']] [['a', 'b']] 0 = ([], 1) := by
  have hs : ¬ calculateSimilarity ['a', 'b'] (([['b', 'a']] :
      List (List Char)).getD 0 []) < 4/5 := by
    rw [show (([['b', 'a']] : List (List Char)).getD 0 []) = ['b', 'a'] from rfl,
      calcSim_ab_ba]
    norm_num
  simp only [checkLoop, if_pos (show (0 : Nat) < ([['b', 'a']] :
    List (List Char)).length from by decide), if_neg hs]

theorem getD_mem_of_lt {l : List (List Char)} {i : Nat} (h : i < l.length) :
    l.getD i [] ∈ l := by
  rw [List.getD_eq_getElem?_getD, List.getElem?_eq_getElem h]
  simp only [Option.getD_some]
  exact List.getElem_mem h

theorem compareTexts_fst (spoken original : List Char) :
    (compareTexts spoken original).1 =
      comparePositional (splitWs (normalizeArabicText spoken))
        (splitWs (normalizeArabicText original)) := rfl

theorem compareTexts_ab_ba_fst :
    (compareTexts ['a', 'b'] ['b', 'a']).1 =
      [ErrorDetail.incorrect ['a', 'b'] ['b', 'a'] 0] := by
  rw [compareTexts_fst,
    show splitWs (normalizeArabicText ['a', 'b']) = [['a', 'b']] from by decide,
    show splitWs (normalizeArabicText ['b', 'a']) = [['b', 'a']] from by decide]
  simp only [comparePositional, if_neg (show ¬(['a', 'b'] = ['b', 'a']) from by decide)]
  rw [ctsim_ab_ba, jsRound_eval_0]
  rfl

theorem compareTexts_bb_snd : (compareTexts ['b'] ['b']).2 = 1 := by
  have h : (compareTexts ['b'] ['b']).2 =
      calculateTextSimilarity (normalizeArabicText ['b']) (normalizeArabicText ['b']) := rfl
  rw [h]
  simp [calculateTextSimilarity]

theorem finalAnalysis_bb_eval : finalAnalysisPOST ['b'] ['b'] [] =
    some { overall_accuracy := 100, completion_percentage := some 100,
           total_words := 1, spoken_words := 1, total_errors := 0,
           errors_incorrect := [], errors_missing := [], errors_extra := [],
           counts_incorrect := 0, counts_missing := 0, counts_extra := 0 } := by
  simp only [finalAnalysisPOST]
  rw [if_neg (by decide)]
  rw [show (compareTexts ['b'] ['b']).1 = [] from by decide, compareTexts_bb_snd,
    show (splitWs (normalizeArabicText ['b'])).length = 1 from by decide]
  norm_num [jsRound1_eval_100]

/-! ## The claims -/

/-- C1 (counterexample): spoken chunk "b" against reference "c d" at
cursor 0: the single token is in bounds (0 + 1 ≤ 2) and scores below
0.8 against "c", yet the new cursor is 0, not cursor + 1 — the
mismatched position is NOT consumed. -/
theorem claim_C1_counterexample :
    (checkCurrentWords ['b'] ['c', ' ', 'd'] 0).2 = 0 ∧
    (splitWs (normalizeArabicText ['b'])).length = 1 ∧
    0 + (splitWs (normalizeArabicText ['b'])).length ≤
      (splitWs (normalizeArabicText ['c', ' ', 'd'])).length ∧
    (0 : Nat) ≠ 0 + (splitWs (normalizeArabicText ['b'])).length := by
  refine ⟨?_, by decide, by decide, by decide⟩
  rw [checkCurrentWords_eq_loop (by decide) (by decide),
    show splitWs (normalizeArabicText ['b']) = [['b']] from by decide,
    show splitWs (normalizeArabicText ['c', ' ', 'd']) = [['c'], ['d']] from by decide,
    checkLoop_eval_b_cd]
  rfl

/-- C1 (amended): in every call of `checkCurrentWords` in which every
spoken token lands in bounds (cursor + number of tokens ≤ reference
length), each in-bounds token with similarity below 0.8 produces an
Incorrect event but does NOT count as a consumed position: the new
cursor is cursor + (number of in-bounds tokens with similarity at
least 0.8). -/
theorem claim_C1_amended (spoken fullText : List Char) (cursor : Nat)
    (h : cursor + (splitWs (normalizeArabicText spoken)).length ≤
      (splitWs (normalizeArabicText fullText)).length) :
    (checkCurrentWords spoken fullText cursor).2 = cursor +
      (List.range (splitWs (normalizeArabicText spoken)).length).countP
        (fun i => !decide (calculateSimilarity
          ((splitWs (normalizeArabicText spoken)).getD i [])
          ((splitWs (normalizeArabicText fullText)).getD (cursor + i) []) < 4/5)) ∧
    ∀ i, i < (splitWs (normalizeArabicText spoken)).length →
      calculateSimilarity ((splitWs (normalizeArabicText spoken)).getD i [])
        ((splitWs (normalizeArabicText fullText)).getD (cursor + i) []) < 4/5 →
      (⟨cursor + i, (splitWs (normalizeArabicText spoken)).getD i [],
        (splitWs (normalizeArabicText fullText)).getD (cursor + i) [],
        ErrType.incorrect,
        jsRound (calculateSimilarity ((splitWs (normalizeArabicText spoken)).getD i [])
          ((splitWs (normalizeArabicText fullText)).getD (cursor + i) []) * 100)⟩ :
        RealtimeError) ∈ (checkCurrentWords spoken fullText cursor).1 := by
  constructor
  · by_cases hg : spoken = [] ∨ fullText = []
    · have hz : checkCurrentWords spoken fullText cursor = ([], cursor) := by
        simp [checkCurrentWords, hg]
      rw [hz]
      rcases hg with hg | hg
      · rw [hg, show (splitWs (normalizeArabicText ([] : List Char))).length = 0
          from by decide]
        simp
      · rw [hg, show (splitWs (normalizeArabicText ([] : List Char))).length = 0
          from by decide] at h
        rw [show (splitWs (normalizeArabicText spoken)).length = 0 from by omega]
        simp
    · by_cases hlen : cursor < (splitWs (normalizeArabicText fullText)).length
      · rw [checkCurrentWords_eq_loop hg hlen]
        simp only
        rw [checkLoop_count_eq _ _ _ h]
      · rw [checkCurrentWords_noop (by omega)]
        rw [show (splitWs (normalizeArabicText spoken)).length = 0 from by omega]
        simp
  · intro i hi hs
    by_cases hg : spoken = [] ∨ fullText = []
    · exfalso
      rcases hg with hg | hg
      · rw [hg, show (splitWs (normalizeArabicText ([] : List Char))).length = 0
          from by decide] at hi
        omega
      · rw [hg, show (splitWs (normalizeArabicText ([] : List Char))).length = 0
          from by decide] at h
        omega
    · have hlen : cursor < (splitWs (normalizeArabicText fullText)).length := by
        omega
      rw [checkCurrentWords_eq_loop hg hlen]
      exact checkLoop_incorrect_mem _ _ cursor i hi (by omega) hs

/-- C1 (witness): the amended cursor equation instantiated at the
counterexample inputs. -/
theorem claim_C1_witness :
    (checkCurrentWords ['b'] ['c', ' ', 'd'] 0).2 = 0 +
      (List.range (splitWs (normalizeArabicText ['b'])).length).countP
        (fun i => !decide (calculateSimilarity
          ((splitWs (normalizeArabicText ['b'])).getD i [])
          ((splitWs (normalizeArabicText ['c', ' ', 'd'])).getD (0 + i) []) < 4/5)) :=
  (claim_C1_amended ['b'] ['c', ' ', 'd'] 0 (by decide)).1

/-- C2 (counterexample): spoken "ab" vs reference "ba": the emitted
Incorrect event carries similarity 0, while
round(wordSimilarity("ab","ba") * 100) — the per-word character-set
Jaccard of the claim — is 100. -/
theorem claim_C2_counterexample :
    (compareTexts ['a', 'b'] ['b', 'a']).1 =
      [ErrorDetail.incorrect ['a', 'b'] ['b', 'a'] 0] ∧
    jsRound (calculateSimilarity ['a', 'b'] ['b', 'a'] * 100) = 100 ∧
    (0 : ℤ) ≠ 100 := by
  refine ⟨compareTexts_ab_ba_fst, ?_, by decide⟩
  rw [calcSim_ab_ba]
  exact jsRound_eval_1

/-- C2 (amended): for every position i at which both token lists have
a token and the tokens differ, the Full-Session Comparator emits an
Incorrect event whose similarity field is
round(calculateTextSimilarity(spoken[i], reference[i]) * 100) — the
greedy whole-word sequence measure, not the character-set Jaccard —
which equals 0 for every such differing pair. -/
theorem claim_C2_amended (spoken original : List Char) (i : Nat)
    (h1 : i < (splitWs (normalizeArabicText spoken)).length)
    (h2 : i < (splitWs (normalizeArabicText original)).length)
    (hne : (splitWs (normalizeArabicText spoken)).getD i [] ≠
      (splitWs (normalizeArabicText original)).getD i []) :
    ErrorDetail.incorrect ((splitWs (normalizeArabicText spoken)).getD i [])
      ((splitWs (normalizeArabicText original)).getD i []) 0
      ∈ (compareTexts spoken original).1 := by
  have hmem := comparePositional_incorrect_mem
    (splitWs (normalizeArabicText spoken)) (splitWs (normalizeArabicText original))
    i h1 h2 hne
  have hsmem : (splitWs (normalizeArabicText spoken)).getD i [] ∈
      splitWs (normalizeArabicText spoken) := getD_mem_of_lt h1
  have homem : (splitWs (normalizeArabicText original)).getD i [] ∈
      splitWs (normalizeArabicText original) := getD_mem_of_lt h2
  have hs : calculateTextSimilarity ((splitWs (normalizeArabicText spoken)).getD i [])
      ((splitWs (normalizeArabicText original)).getD i []) = 0 :=
    calculateTextSimilarity_tokens_eq_zero
      (token_normalize_eq_self hsmem) (token_normalize_eq_self homem)
      (fun c hc => ((splitWs_tokens hsmem).2 c hc).2)
      (fun c hc => ((splitWs_tokens homem).2 c hc).2)
      hne
  rw [hs, jsRound_eval_0] at hmem
  rw [compareTexts_fst]
  exact hmem

/-- C2 (witness): the amended statement instantiated at the
counterexample tokens. -/
theorem claim_C2_witness :
    ErrorDetail.incorrect ((splitWs (normalizeArabicText ['a', 'b'])).getD 0 [])
      ((splitWs (normalizeArabicText ['b', 'a'])).getD 0 []) 0
      ∈ (compareTexts ['a', 'b'] ['b', 'a']).1 :=
  claim_C2_amended ['a', 'b'] ['b', 'a'] 0 (by decide) (by decide) (by decide)

/-- C3 (code evaluation at the failing input): transcript "a" with
reference text "1" — a non-empty string that normalises to zero tokens,
so totalWords = 0.  The claim demands a guarded 0% completion; the code
divides by zero: spokenWords / totalWords is JavaScript Infinity,
Math.min clamps it to 100, and the report says 100% completion. -/
theorem claim_C3_division_by_zero_unguarded :
    (finalAnalysisPOST ['a'] ['1'] []).map Analysis.total_words = some 0 ∧
    (finalAnalysisPOST ['a'] ['1'] []).map Analysis.completion_percentage =
      some (some 100) ∧
    some (some (100 : ℚ)) ≠ some (some 0) := by
  refine ⟨by decide, ?_, by norm_num⟩
  simp only [finalAnalysisPOST]
  rw [if_neg (by decide),
    show (splitWs (normalizeArabicText ['1'])).length = 0 from by decide,
    show (splitWs (normalizeArabicText ['a'])).length = 1 from by decide]
  simp [jsRound1_eval_100]

/-- C4 (counterexample): a final-analysis call with transcript "b",
reference "b" and one accumulated realtime Incorrect event: the report's
three categorized error lists are all empty, so the realtime event
appears zero times, not exactly once. -/
theorem claim_C4_counterexample :
    (finalAnalysisPOST ['b'] ['b'] [⟨0, ['c'], ['b'], ErrType.incorrect, 0⟩]).map
      (fun a => (a.errors_incorrect, a.errors_missing, a.errors_extra)) =
      some ([], [], []) ∧
    ([⟨0, ['c'], ['b'], ErrType.incorrect, 0⟩] : List RealtimeError) ≠ [] := by
  constructor <;> decide

/-- C4 (amended): the `realtimeErrors` input has no influence on the
produced report, and the report's categorized lists are exactly the
partition of the Full-Session Comparator's differences: every
difference appears exactly once across the three lists (counted with
multiplicity). -/
theorem claim_C4_amended (transcript fullText : List Char)
    (re re2 : List RealtimeError) :
    finalAnalysisPOST transcript fullText re =
      finalAnalysisPOST transcript fullText re2 ∧
    (∀ a, finalAnalysisPOST transcript fullText re = some a →
      ∀ e : ErrorDetail,
        a.errors_incorrect.count e + a.errors_missing.count e +
          a.errors_extra.count e = (compareTexts transcript fullText).1.count e) := by
  refine ⟨rfl, ?_⟩
  intro a ha e
  simp only [finalAnalysisPOST] at ha
  by_cases hg : transcript = [] ∨ fullText = []
  · rw [if_pos hg] at ha
    exact Option.noConfusion ha
  · rw [if_neg hg] at ha
    have hval := Option.some.inj ha
    subst hval
    exact count_partition _ e

/-- C4 (witness): the amended partition equation at transcript "b",
reference "b": all counts are 0 on both sides. -/
theorem claim_C4_witness :
    ({ overall_accuracy := 100, completion_percentage := some 100,
       total_words := 1, spoken_words := 1, total_errors := 0,
       errors_incorrect := [], errors_missing := [], errors_extra := [],
       counts_incorrect := 0, counts_missing := 0, counts_extra := 0 } :
      Analysis).errors_incorrect.count (ErrorDetail.missing ['b']) +
      ({ overall_accuracy := 100, completion_percentage := some 100,
         total_words := 1, spoken_words := 1, total_errors := 0,
         errors_incorrect := [], errors_missing := [], errors_extra := [],
         counts_incorrect := 0, counts_missing := 0, counts_extra := 0 } :
        Analysis).errors_missing.count (ErrorDetail.missing ['b']) +
      ({ overall_accuracy := 100, completion_percentage := some 100,
         total_words := 1, spoken_words := 1, total_errors := 0,
         errors_incorrect := [], errors_missing := [], errors_extra := [],
         counts_incorrect := 0, counts_missing := 0, counts_extra := 0 } :
        Analysis).errors_extra.count (ErrorDetail.missing ['b']) =
      (compareTexts ['b'] ['b']).1.count (ErrorDetail.missing ['b']) :=
  (claim_C4_amended ['b'] ['b'] [] []).2 _ finalAnalysis_bb_eval
    (ErrorDetail.missing ['b'])

/-- C5 (counterexample): cursor 5 against the one-word reference "c"
with the non-empty chunk "b": the aligner returns the silent no-op
([], 5) — zero events although the claim requires one Extra event per
spoken token and a usage-error signal distinct from a no-op. -/
theorem claim_C5_counterexample :
    checkCurrentWords ['b'] ['c'] 5 = ([], 5) ∧
    (splitWs (normalizeArabicText ['b'])).length = 1 ∧
    (splitWs (normalizeArabicText ['c'])).length < 5 := by
  refine ⟨?_, by decide, by decide⟩
  decide

/-- C5 (amended): for every call with the cursor at or beyond the
reference length (in particular every out-of-range cursor) and ANY
chunk, `checkCurrentWords` silently returns no events and the
unchanged cursor: nothing is classified as Extra and no usage error is
signalled — indistinguishable from a normal no-op. -/
theorem claim_C5_amended (spoken fullText : List Char) (cursor : Nat)
    (h : (splitWs (normalizeArabicText fullText)).length < cursor) :
    checkCurrentWords spoken fullText cursor = ([], cursor) :=
  checkCurrentWords_noop (le_of_lt h)

/-- C5 (witness): the amended no-op at the counterexample input. -/
theorem claim_C5_witness : checkCurrentWords ['b'] ['c'] 5 = ([], 5) :=
  claim_C5_amended ['b'] ['c'] 5 (by decide)

/-- C6: evaluation of the normaliser at the verse-number marker
" (1) ": the digits are removed but the parentheses remain, because
the replace `/$$\s*\d+\s*$$/g` uses `$` end-anchors and never matches;
the claimed removal of parenthesized verse-number markers does not
happen. -/
theorem claim_C6_verse_marker_not_removed :
    normalizeArabicText [' ', '(', '1', ')', ' '] = ['(', ')'] ∧
    '(' ∈ normalizeArabicText [' ', '(', '1', ')', ' '] := by
  constructor <;> decide

/-- C7: `normalizeArabicText` is idempotent: normalising an already
normalised string changes nothing. -/
theorem claim_C7_normalize_idempotent (s : List Char) :
    normalizeArabicText (normalizeArabicText s) = normalizeArabicText s :=
  normalizeArabicText_idem s

/-- C8: `checkCurrentWords` preserves the cursor bounds invariant and
is monotone: for every cursor within bounds, the returned cursor never
decreases and never exceeds the reference word count. -/
theorem claim_C8_cursor_bounds (spoken fullText : List Char) (cursor : Nat)
    (h : cursor ≤ (splitWs (normalizeArabicText fullText)).length) :
    cursor ≤ (checkCurrentWords spoken fullText cursor).2 ∧
    (checkCurrentWords spoken fullText cursor).2 ≤
      (splitWs (normalizeArabicText fullText)).length := by
  by_cases hg : spoken = [] ∨ fullText = []
  · rw [show checkCurrentWords spoken fullText cursor = ([], cursor) from by
      simp [checkCurrentWords, hg]]
    exact ⟨le_refl _, h⟩
  · by_cases hlen : cursor < (splitWs (normalizeArabicText fullText)).length
    · rw [checkCurrentWords_eq_loop hg hlen]
      refine ⟨Nat.le_add_right _ _, ?_⟩
      have hcle := checkLoop_count_le (splitWs (normalizeArabicText fullText))
        (splitWs (normalizeArabicText spoken)) cursor
      simp only
      omega
    · rw [checkCurrentWords_noop (by omega)]
      exact ⟨le_refl _, h⟩

/-- C8 (witness): the bounds at chunk "b", reference "b", cursor 0. -/
theorem claim_C8_witness :
    0 ≤ (checkCurrentWords ['b'] ['b'] 0).2 ∧
    (checkCurrentWords ['b'] ['b'] 0).2 ≤
      (splitWs (normalizeArabicText ['b'])).length :=
  claim_C8_cursor_bounds ['b'] ['b'] 0 (by decide)

/-- C9: `calculateSimilarity` returns exactly 1 whenever the two
normalised words have the same set of distinct code points, even when
the normalised strings differ (letter order or repetition), and such a
pair passes the aligner's 0.8 threshold as a match: "ab" spoken
against reference "ba" produces no events and advances the cursor. -/
theorem claim_C9_same_letter_set_scores_one :
    (∀ w1 w2 : List Char,
      (normalizeArabicText w1).toFinset = (normalizeArabicText w2).toFinset →
      calculateSimilarity w1 w2 = 1) ∧
    normalizeArabicText ['a', 'b'] ≠ normalizeArabicText ['b', 'a'] ∧
    checkCurrentWords ['a', 'b'] ['b', 'a'] 0 = ([], 1) := by
  refine ⟨fun w1 w2 h => calculateSimilarity_of_toFinset_eq h, by decide, ?_⟩
  rw [checkCurrentWords_eq_loop (by decide) (by decide),
    show splitWs (normalizeArabicText ['a', 'b']) = [['a', 'b']] from by decide,
    show splitWs (normalizeArabicText ['b', 'a']) = [['b', 'a']] from by decide,
    checkLoop_eval_ab_ba]
  rfl

/-- C9 (witness): the set-equality similarity rule at the concrete
anagram pair. -/
theorem claim_C9_witness : calculateSimilarity ['a', 'b'] ['b', 'a'] = 1 :=
  claim_C9_same_letter_set_scores_one.1 ['a', 'b'] ['b', 'a'] (by decide)

/-- C10: the incremental aligner never emits a `missing` event — every
returned event is `incorrect` or `extra` — while the Full-Session
Comparator does produce `missing` classifications. -/
theorem claim_C10_no_missing_from_aligner :
    (∀ (spoken fullText : List Char) (pos : Nat) (er : RealtimeError),
      er ∈ (checkCurrentWords spoken fullText pos).1 →
      er.type = ErrType.incorrect ∨ er.type = ErrType.extra) ∧
    ErrorDetail.missing ['c'] ∈ (compareTexts [] ['c']).1 := by
  constructor
  · intro spoken fullText pos er hmem
    by_cases hg : spoken = [] ∨ fullText = []
    · rw [show checkCurrentWords spoken fullText pos = ([], pos) from by
        simp [checkCurrentWords, hg]] at hmem
      simp at hmem
    · by_cases hlen : pos < (splitWs (normalizeArabicText fullText)).length
      · rw [checkCurrentWords_eq_loop hg hlen] at hmem
        exact checkLoop_no_missing _ _ pos er hmem
      · rw [checkCurrentWords_noop (by omega)] at hmem
        simp at hmem
  · decide

/-- C10 (witness): the aligner-side statement at the concrete
Incorrect event produced by chunk "b" against reference "c d". -/
theorem claim_C10_witness :
    (⟨0, ['b'], ['c'], ErrType.incorrect, 0⟩ : RealtimeError).type =
      ErrType.incorrect ∨
    (⟨0, ['b'], ['c'], ErrType.incorrect, 0⟩ : RealtimeError).type =
      ErrType.extra :=
  claim_C10_no_missing_from_aligner.1 ['b'] ['c', ' ', 'd'] 0 _ (by
    rw [checkCurrentWords_eq_loop (by decide) (by decide),
      show splitWs (normalizeArabicText ['b']) = [['b']] from by decide,
      show splitWs (normalizeArabicText ['c', ' ', 'd']) = [['c'], ['d']] from by decide,
      checkLoop_eval_b_cd]
    rw [show jsRound (calculateSimilarity ['b'] ['c'] * 100) = 0 from by
      rw [calcSim_b_c]; exact jsRound_eval_0]
    simp)

end Testfqih
